import Mathlib

/-!
Verification of the `reifying/untethered` repository against its
natural-language specification.

The repository bundles two kinds of code:
* the command-policy gate described in the specification (segmenter,
  tokenizer, exemption filter, policy matcher, fallback matcher, gate
  decision) — its implementation file is not present in the source tree,
  so it is modelled here directly from the specification's component
  design (§4), data model (§3) and policy examples (§8);
* the App Store Connect helper script
  `scripts/get-latest-testflight-build.py`, embedded here from its source.
-/

namespace Untethered

/-! ## Command-policy gate: data model -/

/-- Modelled from the spec: the two-valued Verdict of §3 (the gate
implementation file is missing from the source tree). -/
inductive Verdict
  | allow
  | block
deriving DecidableEq

/-- Modelled from the spec: the policy configuration of §6 — forbidden
executables, launcher→forbidden-subcommand mapping, exempt prefixes. -/
structure Policy where
  forbiddenExecutables : List String
  launcherSubcommandDenylist : List (String × List String)
  exemptPrefixes : List String

/-- Modelled from the spec: the concrete policy implied by the examples of
§8 — `xcodebuild` forbidden, `xcrun simctl` forbidden via the launcher
table, version-control and pure-output commands exempt. -/
def defaultPolicy : Policy :=
  { forbiddenExecutables := ["xcodebuild"]
    launcherSubcommandDenylist := [("xcrun", ["simctl"])]
    exemptPrefixes := ["git", "echo", "printf", "cat"] }

/-- Whitespace for word splitting. -/
def isSpc (c : Char) : Bool :=
  c == ' ' || c == '\t' || c == '\n' || c == '\r'

/-- The single-quote character, written by code point. -/
def squote : Char := Char.ofNat 39

/-- The double-quote character. -/
def dquote : Char := '"'

/-- The backslash escape character. -/
def bslash : Char := '\\'

/-- Strip whitespace from both ends of a character list. -/
def trimChars (cs : List Char) : List Char :=
  ((cs.dropWhile isSpc).reverse.dropWhile isSpc).reverse

/-! ## Segmenter (§4.1) -/

/-- Modelled from the spec: split at literal top-level `&&`, `||`, `;`
sequences, not respecting quoting (§4.1's accepted imprecision). -/
def splitSegments : List Char → List Char → List String
  | [], acc => [String.mk acc.reverse]
  | ';' :: rest, acc => String.mk acc.reverse :: splitSegments rest []
  | '&' :: '&' :: rest, acc => String.mk acc.reverse :: splitSegments rest []
  | '|' :: '|' :: rest, acc => String.mk acc.reverse :: splitSegments rest []
  | c :: rest, acc => splitSegments rest (c :: acc)

/-- Modelled from the spec: the Segmenter of §4.1 — split, trim each
segment, drop empty segments. -/
def segmentsOf (line : String) : List String :=
  (splitSegments line.data []).map (fun s => String.mk (trimChars s.data))
    |>.filter (fun s => !(s == ""))

/-! ## Tokenizer (§4.3) -/

/-- Modelled from the spec: the only tokenizer-local error condition. -/
inductive TokErr
  | malformedQuoting
deriving DecidableEq

/-- Quoting mode of the tokenizer scan. -/
inductive QMode
  | normal
  | single
  | double
deriving DecidableEq

/-- Modelled from the spec: the Tokenizer state machine of §4.3.
`cur` is the current word (reversed), `hasW` records whether a word is in
progress (so empty quoted words survive), `acc` the tokens so far. -/
def tokenizeAux : QMode → List Char → List Char → Bool → List String →
    Except TokErr (List String)
  | .normal, [], cur, hasW, acc =>
      .ok (if hasW then acc ++ [String.mk cur.reverse] else acc)
  | .normal, c :: rest, cur, hasW, acc =>
      if c == squote then tokenizeAux .single rest cur true acc
      else if c == dquote then tokenizeAux .double rest cur true acc
      else if c == bslash then
        match rest with
        | [] => .error .malformedQuoting
        | d :: rest2 => tokenizeAux .normal rest2 (d :: cur) true acc
      else if isSpc c then
        if hasW then tokenizeAux .normal rest [] false (acc ++ [String.mk cur.reverse])
        else tokenizeAux .normal rest [] false acc
      else tokenizeAux .normal rest (c :: cur) true acc
  | .single, [], _, _, _ => .error .malformedQuoting
  | .single, c :: rest, cur, _, acc =>
      if c == squote then tokenizeAux .normal rest cur true acc
      else tokenizeAux .single rest (c :: cur) true acc
  | .double, [], _, _, _ => .error .malformedQuoting
  | .double, c :: rest, cur, _, acc =>
      if c == dquote then tokenizeAux .normal rest cur true acc
      else if c == bslash then
        match rest with
        | [] => .error .malformedQuoting
        | d :: rest2 => tokenizeAux .double rest2 (d :: cur) true acc
      else tokenizeAux .double rest (c :: cur) true acc

/-- Modelled from the spec: tokenize one segment (§4.3). -/
def tokenizeSegment (seg : String) : Except TokErr (List String) :=
  tokenizeAux .normal seg.data [] false []

/-! ## Exemption filter (§4.2) -/

/-- Leading whitespace-delimited word of a segment. -/
def leadingWord (seg : String) : String :=
  String.mk ((trimChars seg.data).takeWhile (fun c => !isSpc c))

/-- Second whitespace-delimited word of a segment (empty if none). -/
def secondWord (seg : String) : String :=
  String.mk ((((trimChars seg.data).dropWhile (fun c => !isSpc c)).dropWhile
    isSpc).takeWhile (fun c => !isSpc c))

/-- Modelled from the spec: the Exemption Filter of §4.2 — the segment's
leading word is tested against the fixed exemption set. -/
def isExempt (p : Policy) (seg : String) : Bool :=
  p.exemptPrefixes.contains (leadingWord seg)

/-! ## Policy matcher (§4.4) -/

/-- Look up a launcher's forbidden-subcommand set. -/
def lookupLauncher (p : Policy) (exe : String) : Option (List String) :=
  (p.launcherSubcommandDenylist.find? (fun q => q.1 == exe)).map (fun q => q.2)

/-- Modelled from the spec: the Policy Matcher of §4.4 on a TokenList —
first token against the flat set, else launcher + second token against the
nested set, exact case-sensitive matching. -/
def policyMatch (p : Policy) : List String → Verdict
  | [] => .allow
  | exe :: rest =>
      if p.forbiddenExecutables.contains exe then .block
      else
        match lookupLauncher p exe, rest with
        | some subs, sub :: _ => if subs.contains sub then .block else .allow
        | _, _ => .allow

/-! ## Fallback matcher (§4.5) -/

/-- A character that can extend a word (for the word-boundary test). -/
def isWordChar (c : Char) : Bool := c.isAlphanum || c == '_'

/-- Drop a literal character sequence from the front, if present. -/
def dropLit : List Char → List Char → Option (List Char)
  | [], s => some s
  | _, [] => none
  | p :: ps, c :: cs => if p == c then dropLit ps cs else none

/-- A word boundary: end of input or a non-word character. -/
def wordBoundary : List Char → Bool
  | [] => true
  | c :: _ => !isWordChar c

/-- The text begins with `name` followed by a word boundary. -/
def anchoredWord (name : String) (s : List Char) : Bool :=
  match dropLit name.data s with
  | some rest => wordBoundary rest
  | none => false

/-- Modelled from the spec: fallback hit on a forbidden executable as the
leading word (§4.5). -/
def fallbackExeHit (p : Policy) (s : List Char) : Bool :=
  p.forbiddenExecutables.any (fun n => anchoredWord n s)

/-- Modelled from the spec: fallback hit on a launcher followed by
whitespace and one of its forbidden subcommands (§4.5). -/
def fallbackLauncherHit (p : Policy) (s : List Char) : Bool :=
  p.launcherSubcommandDenylist.any (fun q =>
    match dropLit q.1.data s with
    | some rest =>
        match rest with
        | c :: _ =>
            isSpc c && q.2.any (fun sub => anchoredWord sub (rest.dropWhile isSpc))
        | [] => false
    | none => false)

/-- Modelled from the spec: the Fallback Matcher of §4.5, applied to the
raw segment text after stripping leading whitespace. -/
def fallbackMatch (p : Policy) (seg : String) : Verdict :=
  if fallbackExeHit p (seg.data.dropWhile isSpc) then .block
  else if fallbackLauncherHit p (seg.data.dropWhile isSpc) then .block
  else .allow

/-! ## Gate decision (§4.6) -/

/-- Modelled from the spec: verdict of one segment — exemption first, then
tokenize and policy-match, falling back to textual matching on tokenizer
failure (§3, §4.2–§4.5). -/
def segmentVerdict (p : Policy) (seg : String) : Verdict :=
  if isExempt p seg then .allow
  else
    match tokenizeSegment seg with
    | .ok toks => policyMatch p toks
    | .error _ => fallbackMatch p seg

/-- Modelled from the spec: the fixed advisory message of §4.6. -/
def blockMessage : String :=
  "This command is blocked by policy; use the sanctioned entry point instead."

/-- Modelled from the spec: the Gate Decision of §4.6 — Block iff any
segment verdict is Block. -/
def gateDecision (p : Policy) (line : String) : Verdict :=
  if (segmentsOf line).any (fun s => segmentVerdict p s == .block) then .block
  else .allow

/-! ## Spec-words definitions used to state the claims -/

/-- The claim's words, for refinement comparison: a scan that tracks only
whether a quote is opened and never closed by end of segment, or an escape
character is the last character with nothing to escape (§4.3's failure
condition), returning `true` on malformed quoting. -/
def quoteScan : QMode → List Char → Bool
  | .normal, [] => false
  | .normal, c :: rest =>
      if c == squote then quoteScan .single rest
      else if c == dquote then quoteScan .double rest
      else if c == bslash then
        match rest with
        | [] => true
        | _ :: rest2 => quoteScan .normal rest2
      else quoteScan .normal rest
  | .single, [] => true
  | .single, c :: rest =>
      if c == squote then quoteScan .normal rest else quoteScan .single rest
  | .double, [] => true
  | .double, c :: rest =>
      if c == dquote then quoteScan .normal rest
      else if c == bslash then
        match rest with
        | [] => true
        | _ :: rest2 => quoteScan .double rest2
      else quoteScan .double rest

/-- The claim's words: a segment has malformed quoting. -/
def malformedQuotingSpec (seg : String) : Bool :=
  quoteScan .normal seg.data

/-- The claim's words (C2, textual reading): no segment of the line has a
forbidden executable as its leading whitespace-delimited word, and no
segment has a recognized launcher and one of its forbidden subcommands as
its leading pair of words. -/
def noForbiddenLeadingWord (p : Policy) (line : String) : Bool :=
  (segmentsOf line).all (fun seg =>
    !p.forbiddenExecutables.contains (leadingWord seg) &&
      (match lookupLauncher p (leadingWord seg) with
       | some subs => !subs.contains (secondWord seg)
       | none => true))

/-- The claim's words (C2 amended, token reading): a TokenList does not
begin with a forbidden executable, nor with a recognized launcher followed
by one of that launcher's forbidden subcommands. -/
def tokensSafe (p : Policy) : List String → Bool
  | [] => true
  | exe :: rest =>
      !p.forbiddenExecutables.contains exe &&
        (match lookupLauncher p exe, rest with
         | some subs, sub :: _ => !subs.contains sub
         | _, _ => true)

/-- The claim's words (C2 amended): a segment is safe when its TokenList
(if tokenization succeeds) is safe, or (if tokenization fails) neither of
the fallback's anchored patterns fires on it. -/
def segmentSafe (p : Policy) (seg : String) : Bool :=
  match tokenizeSegment seg with
  | .ok toks => tokensSafe p toks
  | .error _ =>
      !fallbackExeHit p (seg.data.dropWhile isSpc) &&
        !fallbackLauncherHit p (seg.data.dropWhile isSpc)

/-! ## The App Store Connect helper script -/

/-- One build record of the App Store Connect builds response: the
integer-parsed `attributes.version` field used by the script. -/
structure BuildRecord where
  version : Int
deriving DecidableEq

/-- Outcome of the script's HTTPS request for builds: the request raised
`HTTPError`/`URLError`, or it succeeded and the decoded body's `'data'`
entry is absent (`none`) or a list of builds. An empty present list and an
absent entry are both falsy for the script's `data.get('data')` test. -/
inductive FetchOutcome
  | httpFailure
  | ok (body : Option (List BuildRecord))

/-- Embedded from `scripts/get-latest-testflight-build.py`,
`get_latest_build`: on request failure return `None`; otherwise, when the
`'data'` list is truthy, collect the integer versions and return their
maximum when the collected list is truthy; in every other case fall
through to `None`. -/
def get_latest_build (resp : FetchOutcome) : Option Int :=
  match resp with
  | .httpFailure => none
  | .ok body =>
      match body with
      | some builds =>
          if builds.isEmpty then none
          else
            match builds.map BuildRecord.version with
            | [] => none
            | v :: vs => some (vs.foldl max v)
      | none => none

/-- The JWT claims dictionary built by the script. -/
structure JwtPayload where
  iss : String
  iat : Int
  exp : Int
  aud : String
deriving DecidableEq

/-- Embedded from `scripts/get-latest-testflight-build.py`,
`generate_jwt`: the payload passed to `jwt.encode`, as a function of the
issuer id and the issued-at clock reading `int(time.time())`. The ES256
signing itself is the PyJWT library's work, outside the script. -/
def generate_jwt (issuer_id : String) (issued_at : Int) : JwtPayload :=
  { iss := issuer_id
    iat := issued_at
    exp := issued_at + 600
    aud := "appstoreconnect-v1" }

/-! ## Supporting lemmas -/

instance : DecidableEq (Except TokErr (List String)) := fun a b =>
  match a, b with
  | .ok x, .ok y =>
      if h : x = y then isTrue (by rw [h])
      else isFalse (fun hc => by cases hc; exact h rfl)
  | .ok _, .error _ => isFalse (fun hc => by cases hc)
  | .error _, .ok _ => isFalse (fun hc => by cases hc)
  | .error x, .error y =>
      if h : x = y then isTrue (by rw [h])
      else isFalse (fun hc => by cases hc; exact h rfl)

/-- Whether a tokenizer result is the failure case. -/
def isErrTok : Except TokErr (List String) → Bool
  | .ok _ => false
  | .error _ => true

/-- The tokenizer state machine fails exactly when the plain quote scan of
the claim's words reports malformed quoting, whatever the word
accumulator, word flag and token accumulator are. -/
theorem tokenizeAux_isErr (mode : QMode) (chars cur : List Char) (hasW : Bool)
    (acc : List String) :
    isErrTok (tokenizeAux mode chars cur hasW acc) = quoteScan mode chars := by
  induction mode, chars, cur, hasW, acc using tokenizeAux.induct <;>
    rw [tokenizeAux.eq_def, quoteScan.eq_def] <;>
    simp_all [isErrTok]

/-- On whitespace-only input the tokenizer succeeds and adds no token. -/
theorem tokenizeAux_spaces (chars : List Char) (acc : List String)
    (h : chars.all isSpc = true) :
    tokenizeAux .normal chars [] false acc = .ok acc := by
  induction chars generalizing acc with
  | nil => rw [tokenizeAux.eq_def]; simp
  | cons c rest ih =>
    simp only [List.all_cons, Bool.and_eq_true] at h
    have hc : c = ' ' ∨ c = '\t' ∨ c = '\n' ∨ c = '\r' := by
      have h1 := h.1
      simp [isSpc] at h1
      tauto
    rcases hc with rfl | rfl | rfl | rfl <;>
      · rw [tokenizeAux.eq_def]
        simp only [isSpc, squote, dquote, bslash]
        norm_num
        exact ih acc h.2

/-- The gate blocks exactly when some segment's verdict is Block. -/
theorem gateDecision_block_iff (p : Policy) (line : String) :
    gateDecision p line = .block ↔
      ∃ seg ∈ segmentsOf line, segmentVerdict p seg = .block := by
  unfold gateDecision
  constructor
  · intro h
    by_cases ha :
        (segmentsOf line).any (fun s => segmentVerdict p s == Verdict.block) = true
    · rcases List.any_eq_true.mp ha with ⟨s, hs, hv⟩
      exact ⟨s, hs, by simpa using hv⟩
    · rw [if_neg ha] at h
      cases h
  · rintro ⟨s, hs, hv⟩
    rw [if_pos (List.any_eq_true.mpr ⟨s, hs, by simp [hv]⟩)]

/-- A token-safe TokenList passes the Policy Matcher. -/
theorem policyMatch_allow_of_tokensSafe (p : Policy) (ts : List String)
    (h : tokensSafe p ts = true) : policyMatch p ts = .allow := by
  cases ts with
  | nil => rfl
  | cons exe rest =>
    simp only [tokensSafe] at h
    simp only [policyMatch]
    cases hl : lookupLauncher p exe <;> simp only [hl] at h ⊢ <;>
      cases rest <;> simp_all

/-- A safe segment's verdict is Allow. -/
theorem segmentVerdict_allow_of_segmentSafe (p : Policy) (seg : String)
    (h : segmentSafe p seg = true) : segmentVerdict p seg = .allow := by
  rw [segmentVerdict]
  by_cases he : isExempt p seg
  · simp [he]
  · rw [if_neg he]
    rw [segmentSafe] at h
    cases htok : tokenizeSegment seg with
    | ok toks =>
      rw [htok] at h
      exact policyMatch_allow_of_tokensSafe p toks h
    | error e =>
      rw [htok] at h
      simp only [Bool.and_eq_true, Bool.not_eq_true'] at h
      rw [fallbackMatch, if_neg (by simp [h.1]), if_neg (by simp [h.2])]

/-- The starting value bounds a left max-fold. -/
theorem le_foldl_max (vs : List Int) (v : Int) : v ≤ vs.foldl max v := by
  induction vs generalizing v with
  | nil => exact le_refl v
  | cons h t ih => exact le_trans (le_max_left v h) (ih (max v h))

/-- A left max-fold returns its starting value or a list element. -/
theorem foldl_max_mem (vs : List Int) (v : Int) :
    vs.foldl max v = v ∨ vs.foldl max v ∈ vs := by
  induction vs generalizing v with
  | nil => left; rfl
  | cons h t ih =>
    rcases ih (max v h) with heq | hmem
    · rcases max_choice v h with hv | hh
      · left; rw [List.foldl_cons, heq, hv]
      · right; rw [List.foldl_cons, heq, hh]; exact List.mem_cons_self _ _
    · right; exact List.mem_cons_of_mem _ hmem

/-- Every list element is bounded by a left max-fold over the list. -/
theorem foldl_max_le (vs : List Int) (v w : Int) (hw : w ∈ vs) :
    w ≤ vs.foldl max v := by
  induction vs generalizing v with
  | nil => cases hw
  | cons h t ih =>
    rcases List.mem_cons.mp hw with rfl | hmem
    · exact le_trans (le_max_right v w) (le_foldl_max t (max v w))
    · exact ih (max v h) hmem

/-- Successful launcher lookup means the pair is in the table. -/
theorem lookupLauncher_some_mem (p : Policy) (exe : String) (subs : List String)
    (h : lookupLauncher p exe = some subs) :
    (exe, subs) ∈ p.launcherSubcommandDenylist := by
  rw [lookupLauncher] at h
  cases hf : p.launcherSubcommandDenylist.find? (fun q => q.1 == exe) with
  | none => rw [hf] at h; cases h
  | some q =>
    rw [hf] at h
    simp only [Option.map_some'] at h
    have hq := List.mem_of_find?_eq_some hf
    have hkey : q.1 = exe := by simpa using List.find?_some hf
    have hq2 : q = (exe, subs) := by
      cases q
      simp_all
    rw [← hq2]
    exact hq

/-- With distinct launcher keys, table membership determines the lookup. -/
theorem lookupLauncher_eq_of_mem (p : Policy) (exe : String) (subs : List String)
    (hkeys : (p.launcherSubcommandDenylist.map Prod.fst).Nodup)
    (hmem : (exe, subs) ∈ p.launcherSubcommandDenylist) :
    lookupLauncher p exe = some subs := by
  rw [lookupLauncher]
  cases hf : p.launcherSubcommandDenylist.find? (fun q => q.1 == exe) with
  | none =>
    exfalso
    have := List.find?_eq_none.mp hf (exe, subs) hmem
    simp at this
  | some q =>
    have hq := List.mem_of_find?_eq_some hf
    have hkey : q.1 = exe := by simpa using List.find?_some hf
    have hq2 : q = (exe, subs) :=
      List.inj_on_of_nodup_map hkeys hq hmem (by simp [hkey])
    simp [hq2]

/-! ## The claims -/

/-- C1: For every command line, the Gate Decision is Block iff at least one
of its segments has verdict Block; in particular, for the compound command
`make build && xcodebuild test` the Gate Decision is Block even though the
first segment is benign. -/
theorem C1_gate_blocks_iff_some_segment_blocks (p : Policy) (line : String) :
    (gateDecision p line = .block ↔
      ∃ seg ∈ segmentsOf line, segmentVerdict p seg = .block)
    ∧ gateDecision defaultPolicy "make build && xcodebuild test" = .block :=
  ⟨gateDecision_block_iff p line, by decide⟩

/-- C2 counterexample: the single segment of `"xcodebuild" build` does not
have a forbidden executable as its leading whitespace-delimited word (that
word carries the surrounding quotes) and has no launcher pair, yet the
Gate Decision is Block, because tokenization strips the quotes before the
policy match. -/
theorem C2_counterexample_quoted_executable :
    noForbiddenLeadingWord defaultPolicy "\"xcodebuild\" build" = true
    ∧ gateDecision defaultPolicy "\"xcodebuild\" build" = .block :=
  ⟨by decide, by decide⟩

/-- C2 (amended): for every command line in which every segment either
tokenizes successfully to a TokenList that does not begin with a forbidden
executable nor with a recognized launcher followed by one of that
launcher's forbidden subcommands, or fails tokenization and matches
neither of the fallback's anchored patterns, the Gate Decision is Allow. -/
theorem C2_safe_lines_allowed (p : Policy) (line : String)
    (h : (segmentsOf line).all (fun seg => segmentSafe p seg) = true) :
    gateDecision p line = .allow := by
  have hany :
      (segmentsOf line).any (fun s => segmentVerdict p s == Verdict.block) = false := by
    rw [List.any_eq_false]
    intro s hs
    simp [segmentVerdict_allow_of_segmentSafe p s (List.all_eq_true.mp h s hs)]
  rw [gateDecision, hany]
  simp

theorem C2_safe_lines_allowed_witness :
    gateDecision defaultPolicy "ls -la && make build" = .allow :=
  C2_safe_lines_allowed defaultPolicy "ls -la && make build" (by decide)

/-- C3: A segment whose leading word is in the exemption set gets verdict
Allow whatever its remaining content is; in particular the lines
`git commit -m "ran xcodebuild to verify"` and `echo "please run
xcodebuild"` are allowed although a forbidden name occurs in their text. -/
theorem C3_exempt_segments_always_allow (p : Policy) (seg : String)
    (h : p.exemptPrefixes.contains (leadingWord seg) = true) :
    segmentVerdict p seg = .allow
    ∧ gateDecision defaultPolicy "git commit -m \"ran xcodebuild to verify\"" = .allow
    ∧ gateDecision defaultPolicy "echo \"please run xcodebuild\"" = .allow := by
  refine ⟨?_, by decide, by decide⟩
  rw [segmentVerdict, if_pos]
  rw [isExempt]
  exact h

theorem C3_exempt_segments_always_allow_witness :
    segmentVerdict defaultPolicy "git push --force xcodebuild" = .allow :=
  (C3_exempt_segments_always_allow defaultPolicy "git push --force xcodebuild"
    (by decide)).1

/-- C4: On a non-empty TokenList the Policy Matcher blocks exactly when
the first token is a forbidden executable, or the first token is a
recognized launcher and the second token is one of its forbidden
subcommands; matching is exact and case-sensitive, as the examples show. -/
theorem C4_policy_matcher_characterized (p : Policy) (exe : String)
    (ts : List String)
    (hkeys : (p.launcherSubcommandDenylist.map Prod.fst).Nodup) :
    (policyMatch p (exe :: ts) = .block ↔
      exe ∈ p.forbiddenExecutables ∨
        ∃ subs sub rest, (exe, subs) ∈ p.launcherSubcommandDenylist ∧
          ts = sub :: rest ∧ sub ∈ subs)
    ∧ gateDecision defaultPolicy "xcodebuild build -scheme App" = .block
    ∧ gateDecision defaultPolicy "xcrun simctl list devices" = .block
    ∧ gateDecision defaultPolicy "xcrun otherTool --flag" = .allow
    ∧ policyMatch defaultPolicy ["Xcodebuild"] = .allow := by
  refine ⟨?_, by decide, by decide, by decide, by decide⟩
  constructor
  · intro hb
    by_cases hc : p.forbiddenExecutables.contains exe = true
    · left
      simpa using hc
    · right
      have hm : exe ∉ p.forbiddenExecutables := by simpa using hc
      cases ts with
      | nil =>
        exfalso
        cases hl : lookupLauncher p exe <;> simp [policyMatch, hl, hm] at hb
      | cons sub rest =>
        cases hl : lookupLauncher p exe with
        | none =>
          exfalso
          simp [policyMatch, hl, hm] at hb
        | some subs =>
          by_cases hs : subs.contains sub = true
          · exact ⟨subs, sub, rest, lookupLauncher_some_mem p exe subs hl, rfl,
              by simpa using hs⟩
          · exfalso
            have hns : sub ∉ subs := by simpa using hs
            simp [policyMatch, hl, hm, hns] at hb
  · intro hr
    rcases hr with hf | ⟨subs, sub, rest, hmem, hts, hsub⟩
    · simp [policyMatch, hf]
    · subst hts
      by_cases hc : p.forbiddenExecutables.contains exe = true
      · have hm : exe ∈ p.forbiddenExecutables := by simpa using hc
        simp [policyMatch, hm]
      · have hl := lookupLauncher_eq_of_mem p exe subs hkeys hmem
        simp [policyMatch, hl, hsub]

theorem C4_policy_matcher_characterized_witness :
    gateDecision defaultPolicy "xcrun simctl list devices" = .block :=
  (C4_policy_matcher_characterized defaultPolicy "xcrun" ["simctl"]
    (by decide)).2.2.1

/-- C5: The gate is a total function into the two-valued Verdict type, a
line with zero segments is allowed, and empty or blank or separator-only
input yields zero segments and the decision Allow. -/
theorem C5_total_and_empty_allow (p : Policy) (line : String) :
    (gateDecision p line = .allow ∨ gateDecision p line = .block)
    ∧ (segmentsOf line = [] → gateDecision p line = .allow)
    ∧ segmentsOf "" = []
    ∧ gateDecision defaultPolicy "" = .allow
    ∧ segmentsOf "   " = []
    ∧ gateDecision defaultPolicy " ;;  ; " = .allow := by
  refine ⟨?_, ?_, by decide, by decide, by decide, by decide⟩
  · rw [gateDecision]
    by_cases h : (segmentsOf line).any (fun s => segmentVerdict p s == Verdict.block) = true
    · right; rw [if_pos h]
    · left; rw [if_neg h]
  · intro h
    rw [gateDecision, h]
    simp

theorem C5_total_and_empty_allow_witness :
    gateDecision defaultPolicy "" = .allow :=
  (C5_total_and_empty_allow defaultPolicy "").2.1 (by decide)

/-- C6: Tokenizing a segment fails with MalformedQuoting exactly when a
quote is opened and never closed by end of segment or an escape character
is the last character; on any other input it succeeds, and a
whitespace-only segment yields the empty TokenList. -/
theorem C6_tokenizer_failure_characterized (seg : String) :
    (tokenizeSegment seg = .error .malformedQuoting ↔
      malformedQuotingSpec seg = true)
    ∧ (malformedQuotingSpec seg = false → ∃ toks, tokenizeSegment seg = .ok toks)
    ∧ (seg.data.all isSpc = true → tokenizeSegment seg = .ok []) := by
  have key := tokenizeAux_isErr .normal seg.data [] false []
  rw [malformedQuotingSpec]
  refine ⟨⟨?_, ?_⟩, ?_, ?_⟩
  · intro h
    rw [tokenizeSegment] at h
    rw [← key, h]
    rfl
  · intro h
    rw [h] at key
    rw [tokenizeSegment]
    cases hr : tokenizeAux .normal seg.data [] false [] with
    | ok toks => rw [hr] at key; cases key
    | error e => cases e; rfl
  · intro h
    rw [h] at key
    rw [tokenizeSegment]
    cases hr : tokenizeAux .normal seg.data [] false [] with
    | ok toks => exact ⟨toks, rfl⟩
    | error e => rw [hr] at key; cases key
  · intro h
    rw [tokenizeSegment]
    exact tokenizeAux_spaces seg.data [] h

theorem C6_tokenizer_failure_characterized_witness :
    tokenizeSegment "  \t " = .ok [] :=
  (C6_tokenizer_failure_characterized "  \t ").2.2 (by decide)

/-- C7: For a non-exempt segment the verdict is the Policy Matcher's
result whenever the Tokenizer succeeds and the Fallback Matcher's result
whenever it fails, so the failure is absorbed rather than surfaced; the
segment `xcodebuild "unterminated` fails tokenization and is blocked by
the fallback's anchored leading-word match. -/
theorem C7_fallback_only_on_tokenizer_failure (p : Policy) (seg : String)
    (h : isExempt p seg = false) :
    (∀ toks, tokenizeSegment seg = .ok toks →
      segmentVerdict p seg = policyMatch p toks)
    ∧ (∀ e, tokenizeSegment seg = .error e →
      segmentVerdict p seg = fallbackMatch p seg)
    ∧ tokenizeSegment "xcodebuild \"unterminated" = .error .malformedQuoting
    ∧ gateDecision defaultPolicy "xcodebuild \"unterminated" = .block
    ∧ fallbackMatch defaultPolicy "xcodebuild \"unterminated" = .block := by
  refine ⟨?_, ?_, by decide, by decide, by decide⟩
  · intro toks ht
    rw [segmentVerdict, if_neg (by simp [h])]
    rw [ht]
  · intro e ht
    rw [segmentVerdict, if_neg (by simp [h])]
    rw [ht]

theorem C7_fallback_only_on_tokenizer_failure_witness :
    gateDecision defaultPolicy "xcodebuild \"unterminated" = .block :=
  (C7_fallback_only_on_tokenizer_failure defaultPolicy
    "xcodebuild \"unterminated" (by decide)).2.2.2.1

/-- C8: The gate is a pure function of the command line: any two
evaluations of the same line yield the same Verdict. -/
theorem C8_deterministic (p : Policy) (line : String) (v w : Verdict)
    (hv : gateDecision p line = v) (hw : gateDecision p line = w) : v = w :=
  hv.symm.trans hw

theorem C8_deterministic_witness : Verdict.block = Verdict.block :=
  C8_deterministic defaultPolicy "xcodebuild test" .block .block
    (by decide) (by decide)

/-- C9: `get_latest_build` returns None when the HTTP request fails or the
decoded body's data list is absent or empty, and returns the maximum of
the integer-parsed version attributes when the list is non-empty. -/
theorem C9_latest_build_is_max (b : BuildRecord) (bs : List BuildRecord) :
    get_latest_build .httpFailure = none
    ∧ get_latest_build (.ok none) = none
    ∧ get_latest_build (.ok (some [])) = none
    ∧ ∃ m, get_latest_build (.ok (some (b :: bs))) = some m
        ∧ m ∈ (b :: bs).map BuildRecord.version
        ∧ ∀ v ∈ (b :: bs).map BuildRecord.version, v ≤ m := by
  refine ⟨rfl, rfl, rfl, ?_⟩
  refine ⟨(bs.map BuildRecord.version).foldl max b.version, ?_, ?_, ?_⟩
  · rfl
  · rcases foldl_max_mem (bs.map BuildRecord.version) b.version with heq | hmem
    · rw [List.map_cons, heq]
      exact List.mem_cons_self _ _
    · rw [List.map_cons]
      exact List.mem_cons_of_mem _ hmem
  · intro v hv
    rw [List.map_cons] at hv
    rcases List.mem_cons.mp hv with rfl | hmem
    · exact le_foldl_max _ _
    · exact foldl_max_le _ _ _ hmem

theorem C9_latest_build_is_max_witness :
    ∃ m, get_latest_build (.ok (some [⟨3⟩, ⟨7⟩, ⟨5⟩])) = some m
      ∧ m ∈ ([⟨3⟩, ⟨7⟩, ⟨5⟩] : List BuildRecord).map BuildRecord.version
      ∧ ∀ v ∈ ([⟨3⟩, ⟨7⟩, ⟨5⟩] : List BuildRecord).map BuildRecord.version,
          v ≤ m :=
  (C9_latest_build_is_max ⟨3⟩ [⟨7⟩, ⟨5⟩]).2.2.2

/-- C10: The JWT payload built by `generate_jwt` expires exactly 600
seconds after its issued-at time, carries the given issuer id, and is
addressed to the fixed audience `appstoreconnect-v1`. -/
theorem C10_jwt_payload_fields (issuer_id : String) (issued_at : Int) :
    (generate_jwt issuer_id issued_at).exp
        = (generate_jwt issuer_id issued_at).iat + 600
    ∧ (generate_jwt issuer_id issued_at).iss = issuer_id
    ∧ (generate_jwt issuer_id issued_at).aud = "appstoreconnect-v1" :=
  ⟨rfl, rfl, rfl⟩

end Untethered
